import Mathlib

/-!
Shallow embedding of the data-processing core of the repository
(`proyecto_progra`): the record/dataset model (`src/modelos/registro.py`,
`src/modelos/dataset.py`), the transformer (`src/procesadores/transformador.py`),
the cleaner (`src/procesadores/limpiador.py`), the two analyzers
(`src/analizadores/analizador_estadistico.py`, `analizador_ventas.py`) and the
operation journal (`src/persistencia/registro_operaciones.py`).

Conventions of the embedding:
* Python `float` values are modelled as exact rationals `ℚ`; the float literals
  occurring in the data are short decimal strings, for which rational
  arithmetic agrees with the intended real-number semantics.
* A record's field values are `Option String`: `some s` is a present string
  value, `none` is Python `None`.  A field can also be absent from the record
  altogether; `Registro.obtener_campo` (like `dict.get`) returns `none` in
  both cases, while structural equality (`dict ==`) distinguishes them.
* Stateful methods are modelled as functions returning the new state
  (and the method's return value where there is one).
-/

namespace ProgCourse

/-- Truthiness of an optional string, as Python evaluates it in an
`if valor:` test: `None` and the empty string are falsy, every other
string is truthy. -/
def pyTruthy : Option String → Bool
  | none => false
  | some s => !s.isEmpty

/-! ### Python `float(str)` coercion

`pyFloat` models the success/value behaviour of Python's `float`
constructor on the string inputs this repository feeds it (CSV cell
contents): optional surrounding whitespace, an optional sign, a decimal
digit string with an optional fractional part, and an optional decimal
exponent.  The special spellings `inf`/`nan` and digit-group underscores
are not modelled (no claim exercises them); on all other inputs the model
returns `some q` exactly when `float` succeeds, with `q` the exact
rational value of the literal. -/

/-- The numeric value of a list of decimal digit characters. -/
def natOfDigits (ds : List Char) : ℕ :=
  ds.foldl (fun acc c => 10 * acc + (c.toNat - '0'.toNat)) 0

/-- Split a leading run of decimal digits off a character list. -/
def takeDigits (cs : List Char) : List Char × List Char :=
  (cs.takeWhile Char.isDigit, cs.dropWhile Char.isDigit)

/-- Parse an optional sign, returning the sign as a rational `1` or `-1`. -/
def parseSign : List Char → ℚ × List Char
  | '+' :: rest => (1, rest)
  | '-' :: rest => (-1, rest)
  | cs => (1, cs)

/-- Parse the optional exponent part (`e`/`E`, optional sign, digits);
returns `none` if an exponent marker is present but malformed. -/
def parseExp : List Char → Option (ℤ × List Char)
  | [] => some (0, [])
  | 'e' :: rest => parseExpDigits rest
  | 'E' :: rest => parseExpDigits rest
  | cs => some (0, cs)
where
  parseExpDigits (cs : List Char) : Option (ℤ × List Char) :=
    let (sgn, cs') := parseSign cs
    let (ds, rest) := takeDigits cs'
    if ds.isEmpty then none
    else some ((if sgn = 1 then (natOfDigits ds : ℤ) else -(natOfDigits ds : ℤ)), rest)

/-- Python `float(s)`: `some` of the exact rational value of the decimal
literal `s` when the coercion succeeds, `none` when it raises `ValueError`. -/
def pyFloat (s : String) : Option ℚ :=
  let cs := s.trim.toList
  let (sgn, cs₁) := parseSign cs
  let (intDs, cs₂) := takeDigits cs₁
  match cs₂ with
  | '.' :: cs₃ =>
      let (fracDs, cs₄) := takeDigits cs₃
      if intDs.isEmpty && fracDs.isEmpty then none
      else
        match parseExp cs₄ with
        | some (e, []) =>
            some (sgn * ((natOfDigits intDs : ℚ) +
              (natOfDigits fracDs : ℚ) / (10 : ℚ) ^ fracDs.length) * (10 : ℚ) ^ e)
        | _ => none
  | _ =>
      if intDs.isEmpty then none
      else
        match parseExp cs₂ with
        | some (e, []) => some (sgn * (natOfDigits intDs : ℚ) * (10 : ℚ) ^ e)
        | _ => none

/-- Python `round(x, 2)`, idealized to exact decimal rounding of the
rational value to two places (rounding to the nearest hundredth). -/
def round2 (q : ℚ) : ℚ := (round (q * 100) : ℚ) / 100

/-- Coercion of an optional field value, as `float(valor)` behaves on it:
a present string parses via `pyFloat`; `None` raises (`TypeError`). -/
def pyFloatOpt : Option String → Option ℚ
  | none => none
  | some s => pyFloat s

/-! ### Python string comparison

Python compares strings lexicographically by Unicode code point; this is
the order `Dataset.ordenar` sorts its keys by. -/

/-- Lexicographic (code-point) comparison of character lists, as Python's
`<=` compares the underlying strings. -/
def lexLe : List Char → List Char → Bool
  | [], _ => true
  | _ :: _, [] => false
  | x :: xs, y :: ys =>
      if x.toNat < y.toNat then true
      else if y.toNat < x.toNat then false
      else lexLe xs ys

/-- Python `a <= b` on strings. -/
def strLe (a b : String) : Bool := lexLe a.data b.data

/-! ### `Registro` (src/modelos/registro.py)

A `Registro` wraps the Python dict `self._datos`, modelled as an
insertion-ordered association list.  A Python dict never holds a key
twice; association lists with repeated keys are junk states, excluded by
`Registro.wf` where a theorem depends on it. -/

structure Registro where
  datos : List (String × Option String)
deriving DecidableEq

/-- `Registro.obtener_campo`: `self._datos.get(nombre_campo)` — `none` both
when the field is absent and when it is present with value `None`. -/
def Registro.obtener_campo (r : Registro) (campo : String) : Option String :=
  (r.datos.lookup campo).join

/-- `Registro.tiene_campo`: `nombre_campo in self._datos`. -/
def Registro.tiene_campo (r : Registro) (campo : String) : Bool :=
  (r.datos.lookup campo).isSome

/-- `Registro.__eq__`: Python dict equality — same keys, and the same value
at every key (present-with-`None` is distinct from absent). -/
def Registro.eqb (a b : Registro) : Bool :=
  a.datos.all (fun p => b.datos.lookup p.1 == some p.2) &&
  b.datos.all (fun p => a.datos.lookup p.1 == some p.2)

/-- Well-formedness: the underlying association list holds each field name
at most once, as a Python dict does. -/
def Registro.wf (r : Registro) : Prop := (r.datos.map Prod.fst).Nodup

instance (r : Registro) : Decidable r.wf := by unfold Registro.wf; infer_instance

/-! ### `Dataset` (src/modelos/dataset.py) -/

structure Dataset where
  nombre : String
  registros : List Registro
deriving DecidableEq

/-- `Dataset.cantidad_registros`: `len(self._registros)`. -/
def Dataset.cantidad_registros (d : Dataset) : ℕ := d.registros.length

/-- `Dataset.esta_vacio`: `len(self._registros) == 0`. -/
def Dataset.esta_vacio (d : Dataset) : Bool := d.registros.length == 0

/-- `Dataset.filtrar`: builds a fresh dataset named `f"{nombre}_filtrado"`
holding, in order, the records satisfying the predicate.  The source
dataset is only read, never written. -/
def Dataset.filtrar (d : Dataset) (condicion : Registro → Bool) : Dataset :=
  ⟨d.nombre ++ "_filtrado", d.registros.filter condicion⟩

/-- The sort key of `Dataset.ordenar`: `registro.obtener_campo(campo) or ""`
— the field's value, with an absent/`None` (or empty) value replaced by the
empty string. -/
def sortKey (campo : String) (r : Registro) : String :=
  match r.obtener_campo campo with
  | none => ""
  | some s => s

/-- The Boolean comparison `list.sort` sorts by: ascending key order, or
descending when `reverso` is set.  Python's `reverse=True` flips the
comparison while remaining stable. -/
def ordenarLe (campo : String) (reverso : Bool) (a b : Registro) : Bool :=
  if reverso then strLe (sortKey campo b) (sortKey campo a)
  else strLe (sortKey campo a) (sortKey campo b)

/-- `Dataset.ordenar`: in-place stable sort of `self._registros` by
`key=lambda r: r.obtener_campo(campo) or ""`, with `reverse=reverso`;
modelled as returning the dataset with the sorted record list (Python's
Timsort and any other stable sort agree on the result). -/
def Dataset.ordenar (d : Dataset) (campo : String) (reverso : Bool) : Dataset :=
  ⟨d.nombre, d.registros.mergeSort (ordenarLe campo reverso)⟩

/-- `Dataset.obtener_campos`: the field names of the first record, in
order; empty for an empty dataset. -/
def Dataset.obtener_campos (d : Dataset) : List String :=
  match d.registros with
  | [] => []
  | r :: _ => r.datos.map Prod.fst

/-- `Dataset.obtener_valores_campo`: the non-`None` values of the field
across records, in record order. -/
def Dataset.obtener_valores_campo (d : Dataset) (campo : String) : List String :=
  d.registros.filterMap (fun r => r.obtener_campo campo)

/-- `Dataset.obtener_valores_unicos`: `list(set(valores))` — the distinct
values, in an order Python leaves unspecified; modelled with `List.dedup`
(no claim depends on the order, only on membership). -/
def Dataset.obtener_valores_unicos (d : Dataset) (campo : String) : List String :=
  (d.obtener_valores_campo campo).dedup

/-! ### `Transformador` (src/procesadores/transformador.py) -/

/-- `Transformador.filtrar_por_campo`: keeps records with
`registro.obtener_campo(nombre_campo) == valor`. -/
def filtrar_por_campo (d : Dataset) (campo : String) (valor : Option String) : Dataset :=
  d.filtrar (fun r => r.obtener_campo campo == valor)

/-- The record predicate of `Transformador.filtrar_por_rango_numerico`:
`False` on an absent/`None` value, `False` when `float` raises
`ValueError`, otherwise `minimo <= float(valor) <= maximo`. -/
def enRango (campo : String) (minimo maximo : ℚ) (r : Registro) : Bool :=
  match r.obtener_campo campo with
  | none => false
  | some v =>
      match pyFloat v with
      | some x => decide (minimo ≤ x) && decide (x ≤ maximo)
      | none => false

/-- `Transformador.filtrar_por_rango_numerico`. -/
def filtrar_por_rango_numerico (d : Dataset) (campo : String) (minimo maximo : ℚ) : Dataset :=
  d.filtrar (enRango campo minimo maximo)

/-- `Transformador.agrupar_por_campo`: one entry per unique value of the
field, each holding the sub-dataset produced by `filtrar_por_campo`. -/
def agrupar_por_campo (d : Dataset) (campo : String) : List (String × Dataset) :=
  (d.obtener_valores_unicos campo).map (fun v => (v, filtrar_por_campo d campo (some v)))

/-- The inner summing loop of `Transformador.calcular_totales_por_grupo`:
`total = 0`, then for every record add `float(valor_campo)` when the value
is not `None` and the coercion succeeds (a `ValueError` is passed over). -/
def sumarCampo (regs : List Registro) (campo : String) : ℚ :=
  regs.foldl
    (fun total r =>
      match pyFloatOpt (r.obtener_campo campo) with
      | some x => total + x
      | none => total)
    0

/-- `Transformador.calcular_totales_por_grupo`: groups via
`agrupar_por_campo`, then maps each group to its rounded sum. -/
def calcular_totales_por_grupo (d : Dataset) (campo_agrupacion campo_suma : String) :
    List (String × ℚ) :=
  (agrupar_por_campo d campo_agrupacion).map
    (fun p => (p.1, round2 (sumarCampo p.2.registros campo_suma)))

/-! ### `AnalizadorVentas` (src/analizadores/analizador_ventas.py)

`_analizar_por_campo` accumulates into a `defaultdict(float)`, modelled as
an insertion-ordered association list `List (String × ℚ)`. -/

/-- Whether the accumulator dict already holds the key. -/
def ddHasKey (acc : List (String × ℚ)) (k : String) : Bool :=
  (acc.lookup k).isSome

/-- The value the `defaultdict(float)` yields for a key that is present. -/
def ddGet (acc : List (String × ℚ)) (k : String) : ℚ :=
  (acc.lookup k).getD 0

/-- `defaultdict.__getitem__` on a possibly-missing key: appends the key
with the default `0.0` when absent. -/
def ddEnsure (acc : List (String × ℚ)) (k : String) : List (String × ℚ) :=
  if ddHasKey acc k then acc else acc ++ [(k, 0)]

/-- Dict item assignment on a present key. -/
def ddSet (acc : List (String × ℚ)) (k : String) (q : ℚ) : List (String × ℚ) :=
  acc.map (fun p => if p.1 == k then (k, q) else p)

/-- One iteration of the loop of `AnalizadorVentas._analizar_por_campo`:
the record is processed only when both `clave` and `valor` are truthy, and
`agrupacion[str(clave)] += float(valor)` evaluates the defaultdict lookup
(which inserts `0.0` for a new key) before `float(valor)`, so the key is
present even when the coercion then raises `ValueError`. -/
def ventasPaso (g s : String) (acc : List (String × ℚ)) (r : Registro) :
    List (String × ℚ) :=
  let clave := r.obtener_campo g
  let valor := r.obtener_campo s
  if pyTruthy clave && pyTruthy valor then
    let k := clave.getD ""
    let acc1 := ddEnsure acc k
    match pyFloatOpt valor with
    | some x => ddSet acc1 k (ddGet acc1 k + x)
    | none => acc1
  else acc

/-- `AnalizadorVentas._analizar_por_campo`: fold the loop over the records,
then round every accumulated total to two decimals. -/
def analizar_por_campo (d : Dataset) (campo_agrupacion campo_suma : String) :
    List (String × ℚ) :=
  (d.registros.foldl (ventasPaso campo_agrupacion campo_suma) []).map
    (fun p => (p.1, round2 p.2))

/-- `AnalizadorVentas._calcular_ventas_totales`: sums `float(valor_total)`
over records whose `total` value is truthy and coercible, rounded. -/
def calcular_ventas_totales (d : Dataset) : ℚ :=
  round2 (d.registros.foldl
    (fun total r =>
      let v := r.obtener_campo "total"
      if pyTruthy v then
        match pyFloatOpt v with
        | some x => total + x
        | none => total
      else total)
    0)

/-! ### `AnalizadorEstadistico` (src/analizadores/analizador_estadistico.py)

The numeric branch of `_analizar_campo` works on the successfully coerced
values; its statistics are exact rational computations here (Python's
`statistics` module itself computes `mean`/`median`/`variance` exactly via
`Fraction` before converting to `float`).  The field
`desviacion_estandar = sqrt(varianza)` is irrational in general and no
claim mentions it, so the embedding carries the variance only. -/

/-- Ascending sort of rationals (`sorted(data)` inside `statistics.median`). -/
def qSort (l : List ℚ) : List ℚ := l.mergeSort (fun a b => decide (a ≤ b))

/-- `statistics.mean`: exact sum divided by the length (meaningful for
nonempty input; Python raises on an empty list, which no caller reaches). -/
def media (l : List ℚ) : ℚ := (l.foldl (· + ·) 0) / l.length

/-- `statistics.median`: middle element of the sorted values, or the mean
of the two middle elements for an even count. -/
def medianaQ (l : List ℚ) : ℚ :=
  let s := qSort l
  let n := s.length
  if n % 2 = 1 then s.getD (n / 2) 0
  else (s.getD (n / 2 - 1) 0 + s.getD (n / 2) 0) / 2

/-- Python built-in `min` over a nonempty list. -/
def qMin : List ℚ → ℚ
  | [] => 0
  | x :: xs => xs.foldl min x

/-- Python built-in `max` over a nonempty list. -/
def qMax : List ℚ → ℚ
  | [] => 0
  | x :: xs => xs.foldl max x

/-- `statistics.variance` (sample variance): `Σ (x − mean)² / (n − 1)`. -/
def varianzaQ (l : List ℚ) : ℚ :=
  (l.foldl (fun a x => a + (x - media l) ^ 2) 0) / ((l.length : ℚ) - 1)

/-- The largest multiplicity any value attains in the list. -/
def maxCount (l : List ℚ) : ℕ := (l.map (fun x => l.count x)).foldr max 0

/-- `statistics.mode` (Python ≥ 3.8): the first value in data order whose
multiplicity is maximal — `Counter(data).most_common(1)[0][0]`; `none` only
on empty input (where Python raises `StatisticsError`).  Since Python 3.8
a tie between several modes no longer raises: the first-encountered mode
is returned. -/
def pyMode (l : List ℚ) : Option ℚ :=
  l.find? (fun x => l.count x == maxCount l)

structure EstadisticasNumericas where
  total_valores : ℕ
  suma : ℚ
  promedio : ℚ
  mediana : ℚ
  minimo : ℚ
  maximo : ℚ
  varianza : Option ℚ
  moda : Option ℚ
deriving DecidableEq

/-- `AnalizadorEstadistico._estadisticas_numericas` over the coerced
values: every statistic rounded to two decimals; the sample variance only
when there is more than one value; `moda = round(statistics.mode(...), 2)`
with the (Python ≥ 3.8) dead `except StatisticsError` branch giving `none`
only for empty input. -/
def estadisticas_numericas (valores : List ℚ) : EstadisticasNumericas where
  total_valores := valores.length
  suma := round2 (valores.foldl (· + ·) 0)
  promedio := round2 (media valores)
  mediana := round2 (medianaQ valores)
  minimo := round2 (qMin valores)
  maximo := round2 (qMax valores)
  varianza := if 1 < valores.length then some (round2 (varianzaQ valores)) else none
  moda := (pyMode valores).map round2

/-- One step of the frequency count:
`frecuencias[valor] = frecuencias.get(valor, 0) + 1`. -/
def frecPaso (acc : List (String × ℕ)) (v : String) : List (String × ℕ) :=
  if (acc.lookup v).isSome then acc.map (fun p => if p.1 == v then (p.1, p.2 + 1) else p)
  else acc ++ [(v, 1)]

/-- The frequency dict of `_estadisticas_categoricas`, keys in
first-encounter order. -/
def frecuenciasDe (valores : List String) : List (String × ℕ) :=
  valores.foldl frecPaso []

/-- Python `max(frecuencias, key=frecuencias.get)`: the first key, in dict
iteration (= insertion) order, whose count is maximal. -/
def maxPorFrecuencia (m : List (String × ℕ)) : Option String :=
  (m.find? (fun p => m.all (fun q => q.2 ≤ p.2))).map Prod.fst

structure EstadisticasCategoricas where
  total_valores : ℕ
  valores_unicos : ℕ
  valor_mas_comun : Option String
  frecuencia_mas_comun : ℕ
  distribucion : List (String × ℕ)
deriving DecidableEq

/-- `AnalizadorEstadistico._estadisticas_categoricas`.  Note the source's
`frecuencias.get(valor_mas_comun, 0) if valor_mas_comun else 0`: the
frequency falls back to `0` when the most common value is falsy (absent or
the empty string). -/
def estadisticas_categoricas (valores : List String) : EstadisticasCategoricas :=
  let frecuencias := frecuenciasDe valores
  let vmc := maxPorFrecuencia frecuencias
  { total_valores := valores.length
    valores_unicos := valores.dedup.length
    valor_mas_comun := vmc
    frecuencia_mas_comun :=
      if pyTruthy vmc then (frecuencias.lookup (vmc.getD "")).getD 0 else 0
    distribucion := frecuencias }

inductive Estadisticas where
  | numericas (e : EstadisticasNumericas)
  | categoricas (e : EstadisticasCategoricas)
deriving DecidableEq

/-- `AnalizadorEstadistico._analizar_campo`: `None` when the field has no
non-null values; numeric statistics when at least two values coerce via
`float`; categorical statistics otherwise. -/
def analizar_campo (d : Dataset) (campo : String) : Option Estadisticas :=
  let valores := d.obtener_valores_campo campo
  if valores.isEmpty then none
  else
    let nums := valores.filterMap pyFloat
    if 2 ≤ nums.length then some (.numericas (estadisticas_numericas nums))
    else some (.categoricas (estadisticas_categoricas valores))

structure ResultadoEstadistico where
  total_registros : ℕ
  campos : List (String × Estadisticas)
deriving DecidableEq

/-- One step of `analizar`'s per-field loop: the dict assignment
`resultados['campos'][campo] = estadisticas` when `_analizar_campo` did
not return `None`. -/
def analizarPaso (d : Dataset) (acc : List (String × Estadisticas)) (campo : String) :
    List (String × Estadisticas) :=
  match analizar_campo d campo with
  | some e => acc ++ [(campo, e)]
  | none => acc

/-- `AnalizadorEstadistico.analizar`: an empty dataset yields no per-field
entries; otherwise one entry per schema field whose `_analizar_campo` is
not `None`, in schema order (dict insertion; schema keys are distinct for
a well-formed first record). -/
def analizar (d : Dataset) : ResultadoEstadistico :=
  if d.esta_vacio then ⟨d.cantidad_registros, []⟩
  else ⟨d.cantidad_registros, d.obtener_campos.foldl (analizarPaso d) []⟩

/-! ### `Limpiador` (src/procesadores/limpiador.py) -/

/-- Python `registro not in registros_unicos` is membership up to
`Registro.__eq__`. -/
def enLista (l : List Registro) (r : Registro) : Bool :=
  l.any (fun e => Registro.eqb e r)

/-- The loop of `Limpiador.eliminar_duplicados`: keep each record not
already present (by structural equality) among the kept ones, count the
rest. -/
def dedupPaso (acc : List Registro × ℕ) (r : Registro) : List Registro × ℕ :=
  if enLista acc.1 r then (acc.1, acc.2 + 1) else (acc.1 ++ [r], acc.2)

/-- `Limpiador.eliminar_duplicados`: the dataset is emptied and refilled
with the kept records; returns (new dataset state, number removed). -/
def eliminar_duplicados (d : Dataset) : Dataset × ℕ :=
  let r := d.registros.foldl dedupPaso ([], 0)
  (⟨d.nombre, r.1⟩, r.2)

/-! ### `RegistroOperaciones` (src/persistencia/registro_operaciones.py)

Only the in-memory list of operations matters to the claims; the pickle
store mirrors it and is not modelled. -/

structure Operacion where
  timestamp : String
  dataset : String
  operacion : String
  parametros : List (String × String)
  resultado : String
deriving DecidableEq

/-- Python `l[i:]` for an integer `i`: a negative start counts from the
end (clamped at `0`), a nonnegative start drops that many elements. -/
def pySliceFrom (l : List Operacion) (i : ℤ) : List Operacion :=
  if i < 0 then l.drop ((l.length + i).toNat) else l.drop i.toNat

/-- `RegistroOperaciones.obtener_ultimas_n_operaciones`:
`self.operaciones[-n:] if len(self.operaciones) >= n else self.operaciones`. -/
def obtener_ultimas_n_operaciones (operaciones : List Operacion) (n : ℤ) : List Operacion :=
  if n ≤ (operaciones.length : ℤ) then pySliceFrom operaciones (-n) else operaciones

/-! ### `AnalizadorVentas.analizar` result -/

/-- `AnalizadorVentas._obtener_top_n`: the grouped sums sorted by value,
descending and stable (`sorted(..., key=lambda x: x[1], reverse=True)`),
truncated to the first `n`. -/
def obtener_top_n (d : Dataset) (campo_agrupacion campo_suma : String) (n : ℕ) :
    List (String × ℚ) :=
  ((analizar_por_campo d campo_agrupacion campo_suma).mergeSort
    (fun x y => decide (y.2 ≤ x.2))).take n

structure ResultadoVentas where
  total_registros : ℕ
  ventas_totales : ℚ
  por_region : List (String × ℚ)
  por_producto : List (String × ℚ)
  por_categoria : List (String × ℚ)
  por_vendedor : List (String × ℚ)
  top_productos : List (String × ℚ)
  top_vendedores : List (String × ℚ)
deriving DecidableEq

/-- `AnalizadorVentas.analizar`: the initial result dict is returned as-is
for an empty dataset; otherwise each component is filled in. -/
def analizarVentas (d : Dataset) : ResultadoVentas :=
  if d.esta_vacio then
    ⟨d.cantidad_registros, 0, [], [], [], [], [], []⟩
  else
    { total_registros := d.cantidad_registros
      ventas_totales := calcular_ventas_totales d
      por_region := analizar_por_campo d "region" "total"
      por_producto := analizar_por_campo d "producto" "total"
      por_categoria := analizar_por_campo d "categoria" "total"
      por_vendedor := analizar_por_campo d "vendedor" "total"
      top_productos := obtener_top_n d "producto" "total" 5
      top_vendedores := obtener_top_n d "vendedor" "total" 5 }

/-! ### Spec-side definitions

These render sentences of the specification, for comparison with the
source-side functions above. -/

/-- Spec side, for C6: "manually summing `s` per distinct value of `f`
over numerically-coercible entries only" — the plain sum of the coercible
`s`-values of the records whose `f`-field equals `v`. -/
def sumaManualGrupo (d : Dataset) (f s v : String) : ℚ :=
  ((d.registros.filter (fun r => r.obtener_campo f == some v)).map
    (fun r => (pyFloatOpt (r.obtener_campo s)).getD 0)).sum

/-- Spec side, for C7: "keeps the first occurrence of each group of
structurally-equal records, drops the later occurrences" — a record is kept
exactly when no record earlier in the list is structurally equal to it
(`vistos` carries all earlier records). -/
def sinVistos (vistos : List Registro) : List Registro → List Registro
  | [] => []
  | r :: rs =>
      if enLista vistos r then sinVistos (vistos ++ [r]) rs
      else r :: sinVistos (vistos ++ [r]) rs

/-- Whether `_analizar_por_campo` processes a record: both the grouping
value and the summed value are truthy. -/
def procesaVenta (g s : String) (r : Registro) : Bool :=
  pyTruthy (r.obtener_campo g) && pyTruthy (r.obtener_campo s)

/-- The key a processed record accumulates under. -/
def claveVenta (g : String) (r : Registro) : String :=
  (r.obtener_campo g).getD ""

/-- The amount a run of `_analizar_por_campo` accumulates under key `k`:
the sum, over the processed records with key `k`, of the coerced summed
value (`0` when the coercion fails — the defaultdict entry was already
created). -/
def contribVenta (g s k : String) (rs : List Registro) : ℚ :=
  ((rs.filter (fun r => procesaVenta g s r && (claveVenta g r == k))).map
    (fun r => (pyFloatOpt (r.obtener_campo s)).getD 0)).sum

/-- Whether some record is processed under key `k` (and hence the key is
present in the accumulator afterwards). -/
def tocaVenta (g s k : String) (rs : List Registro) : Bool :=
  rs.any (fun r => procesaVenta g s r && (claveVenta g r == k))

/-! ### Concrete sample data (used by witnesses and counterexamples) -/

/-- Scenario A records: `total` = "10", "20", "30"; `region` = "A", "B", "A". -/
def dsVentas : Dataset :=
  ⟨"ventas",
    [⟨[("region", some "A"), ("total", some "10")]⟩,
     ⟨[("region", some "B"), ("total", some "20")]⟩,
     ⟨[("region", some "A"), ("total", some "30")]⟩]⟩

/-- A dataset whose single field `v` holds the two coercible values
"1" and "2" — a two-way tie for the mode. -/
def dsModa : Dataset :=
  ⟨"moda", [⟨[("v", some "1")]⟩, ⟨[("v", some "2")]⟩]⟩

/-- A record whose field `b` is present but null: `b` is in the schema yet
contributes no non-null value. -/
def dsNulo : Dataset :=
  ⟨"nulo", [⟨[("a", some "x"), ("b", none)]⟩]⟩

/-- A dataset whose field `v` always holds the empty string: the most
frequent value of `v` is `""` with frequency 2. -/
def dsVacioTexto : Dataset :=
  ⟨"vacio", [⟨[("v", some "")]⟩, ⟨[("v", some "")]⟩]⟩

/-- A record carrying a `region` but no `total` field at all. -/
def dsSinTotal : Dataset :=
  ⟨"sintotal", [⟨[("region", some "A")]⟩]⟩

/-- Records for the sorting witness: keys "b", "a", "a" on field `k`. -/
def dsOrden : Dataset :=
  ⟨"orden",
    [⟨[("k", some "b"), ("i", some "1")]⟩,
     ⟨[("k", some "a"), ("i", some "2")]⟩,
     ⟨[("k", some "a"), ("i", some "3")]⟩]⟩

/-- Scenario E journal entries: two operations for dataset "sales". -/
def opVenta1 : Operacion := ⟨"2024-01-01 10:00:00", "sales", "cargar", [], "Exitoso"⟩

def opVenta2 : Operacion := ⟨"2024-01-01 10:05:00", "sales", "filtrar", [], "Exitoso"⟩

def opsVentas : List Operacion := [opVenta1, opVenta2]

/-! ## Theorems -/

/-- **C5.** For every Dataset `d` and predicate `P`, `filtrar` returns a
dataset whose record count is the number of records of `d` satisfying `P`,
every returned record satisfies `P`, the returned records appear in their
original relative order (a sublist of `d`'s records), and they are exactly
the records of `d` on which `P` holds.  (`filtrar` only reads its
argument, so the source dataset is unchanged — in the embedding it is a
pure function of `d`.) -/
theorem filtrar_correcto (d : Dataset) (P : Registro → Bool) :
    (d.filtrar P).cantidad_registros = d.registros.countP P ∧
    (∀ r ∈ (d.filtrar P).registros, P r) ∧
    (d.filtrar P).registros.Sublist d.registros ∧
    (d.filtrar P).registros = d.registros.filter P := by
  refine ⟨?_, ?_, ?_, rfl⟩
  · simp [Dataset.filtrar, Dataset.cantidad_registros, List.countP_eq_length_filter]
  · intro r hr
    exact List.of_mem_filter hr
  · exact List.filter_sublist d.registros

/-- **C8.** `filtrar_por_rango_numerico` keeps exactly the records whose
field value is present, coerces to a number, and lies in the inclusive
interval `[minimo, maximo]`; records with an absent value or a failing
coercion are excluded (the predicate is total — no error is raised). -/
theorem filtrar_por_rango_correcto (d : Dataset) (campo : String) (minimo maximo : ℚ) :
    (filtrar_por_rango_numerico d campo minimo maximo).registros =
      d.registros.filter (enRango campo minimo maximo) ∧
    ∀ r : Registro, (enRango campo minimo maximo r = true ↔
      ∃ x : ℚ, pyFloatOpt (r.obtener_campo campo) = some x ∧ minimo ≤ x ∧ x ≤ maximo) := by
  refine ⟨rfl, ?_⟩
  intro r
  unfold enRango pyFloatOpt
  cases h : r.obtener_campo campo with
  | none => simp
  | some v =>
      cases hv : pyFloat v with
      | none => simp [hv]
      | some x => simp [hv, and_assoc]

/-- **C9.** For a journal holding `m` entries and any `n ≥ 1`,
`obtener_ultimas_n_operaciones` returns the last `min n m` entries in
append order (the whole journal when `m < n`). -/
theorem ultimas_n_correcto (ops : List Operacion) (n : ℕ) (h : 1 ≤ n) :
    obtener_ultimas_n_operaciones ops n =
      ops.drop (ops.length - min n ops.length) ∧
    (obtener_ultimas_n_operaciones ops n).length = min n ops.length := by
  have hmain : obtener_ultimas_n_operaciones ops n =
      ops.drop (ops.length - min n ops.length) := by
    unfold obtener_ultimas_n_operaciones pySliceFrom
    by_cases hle : (n : ℤ) ≤ (ops.length : ℤ)
    · have hn : n ≤ ops.length := by exact_mod_cast hle
      rw [if_pos hle, if_pos (by omega : -(n : ℤ) < 0)]
      congr 1
      omega
    · have hn : ops.length < n := by omega
      rw [if_neg hle]
      have : ops.length - min n ops.length = 0 := by omega
      rw [this, List.drop_zero]
  refine ⟨hmain, ?_⟩
  rw [hmain, List.length_drop]
  omega

/-- Witness for C9: after two operations for dataset "sales", the last one
operation is exactly the second. -/
theorem ultimas_n_testigo :
    obtener_ultimas_n_operaciones opsVentas 1 = [opVenta2] ∧
    (obtener_ultimas_n_operaciones opsVentas 1).length = min 1 opsVentas.length :=
  ⟨((ultimas_n_correcto opsVentas 1 (by decide)).1).trans (by decide),
   (ultimas_n_correcto opsVentas 1 (by decide)).2⟩

/-- **C10.** `obtener_ultimas_n_operaciones` with `n = 0` returns the full
journal, not an empty list: Python evaluates `operaciones[-0:]`, and
`-0 == 0`, so the slice starts at the beginning. -/
theorem ultimas_cero_todas (ops : List Operacion) (h : ops ≠ []) :
    obtener_ultimas_n_operaciones ops 0 = ops := by
  unfold obtener_ultimas_n_operaciones pySliceFrom
  rw [if_pos (by exact_mod_cast Int.ofNat_nonneg ops.length)]
  norm_num

/-- Witness for C10 at a concrete two-entry journal. -/
theorem ultimas_cero_testigo : obtener_ultimas_n_operaciones opsVentas 0 = opsVentas :=
  ultimas_cero_todas opsVentas (by decide)

/-! ### Association-list lemmas -/

theorem lookup_eq_some_mem {β : Type _} {l : List (String × β)} {k : String} {v : β}
    (h : l.lookup k = some v) : (k, v) ∈ l := by
  induction l with
  | nil => simp at h
  | cons p t ih =>
      obtain ⟨a, b⟩ := p
      rw [List.lookup_cons] at h
      by_cases hk : k = a
      · subst hk
        rw [show (k == k) = true from beq_self_eq_true k] at h
        obtain rfl : b = v := by simpa using h
        exact List.mem_cons_self _ _
      · rw [show (k == a) = false from beq_eq_false_iff_ne.mpr hk] at h
        exact List.mem_cons_of_mem _ (ih h)

theorem lookup_append {β : Type _} (l₁ l₂ : List (String × β)) (k : String) :
    (l₁ ++ l₂).lookup k = ((l₁.lookup k).or (l₂.lookup k)) := by
  induction l₁ with
  | nil => simp
  | cons p t ih =>
      obtain ⟨a, b⟩ := p
      rw [List.cons_append, List.lookup_cons, List.lookup_cons]
      by_cases hk : k = a
      · rw [show (k == a) = true from beq_iff_eq.mpr hk]
        rfl
      · rw [show (k == a) = false from beq_eq_false_iff_ne.mpr hk]
        exact ih

/-! ### Structural equality of records (`Registro.__eq__`) -/

theorem eqb_lookup_ext {a b : Registro} (h : a.eqb b = true) :
    ∀ k : String, a.datos.lookup k = b.datos.lookup k := by
  intro k
  rw [Registro.eqb, Bool.and_eq_true, List.all_eq_true, List.all_eq_true] at h
  obtain ⟨h1, h2⟩ := h
  cases ha : a.datos.lookup k with
  | some v =>
      have := h1 (k, v) (lookup_eq_some_mem ha)
      have hb : b.datos.lookup k = some v := by simpa using this
      exact hb.symm
  | none =>
      cases hb : b.datos.lookup k with
      | none => rfl
      | some w =>
          have := h2 (k, w) (lookup_eq_some_mem hb)
          rw [show a.datos.lookup k = some w from by simpa using this] at ha
          exact absurd ha (by simp)

theorem eqb_symm {a b : Registro} (h : a.eqb b = true) : b.eqb a = true := by
  rw [Registro.eqb, Bool.and_eq_true] at h ⊢
  exact ⟨h.2, h.1⟩

theorem eqb_trans {a b c : Registro} (hab : a.eqb b = true) (hbc : b.eqb c = true) :
    a.eqb c = true := by
  have extab := eqb_lookup_ext hab
  have extbc := eqb_lookup_ext hbc
  rw [Registro.eqb, Bool.and_eq_true, List.all_eq_true, List.all_eq_true] at hab hbc ⊢
  constructor
  · intro p hp
    have := hab.1 p hp
    rw [beq_iff_eq] at this ⊢
    rw [← extbc p.1]
    exact this
  · intro p hp
    have := hbc.2 p hp
    rw [beq_iff_eq] at this ⊢
    rw [extab p.1]
    exact this

theorem enLista_iff {l : List Registro} {r : Registro} :
    enLista l r = true ↔ ∃ e ∈ l, e.eqb r = true := by
  simp [enLista]

theorem enLista_append_singleton {l : List Registro} {e r : Registro} :
    enLista (l ++ [e]) r = true ↔ enLista l r = true ∨ e.eqb r = true := by
  simp [enLista]

/-! ### Deduplication lemmas (C7) -/

/-- Length invariant of the dedup loop: kept plus removed equals
processed. -/
theorem dedup_longitud : ∀ (rs : List Registro) (acc : List Registro) (c : ℕ),
    (rs.foldl dedupPaso (acc, c)).2 + (rs.foldl dedupPaso (acc, c)).1.length
      = c + acc.length + rs.length
  | [], acc, c => by simp
  | r :: rs, acc, c => by
      rw [List.foldl_cons]
      by_cases h : enLista acc r = true
      · rw [show dedupPaso (acc, c) r = (acc, c + 1) from by simp [dedupPaso, h]]
        rw [dedup_longitud rs acc (c + 1)]
        simp
        omega
      · rw [show dedupPaso (acc, c) r = (acc ++ [r], c) from by
          simp [dedupPaso, h]]
        rw [dedup_longitud rs (acc ++ [r]) c]
        simp
        omega

/-- The dedup loop keeps exactly the records with no structurally-equal
predecessor: with `vistos` the records already processed and `acc` the
ones kept so far, as long as `acc` and `vistos` are equivalent as
membership tests, the final kept list is `acc ++ sinVistos vistos rs`. -/
theorem dedup_mantiene : ∀ (rs : List Registro) (vistos acc : List Registro) (c : ℕ),
    (∀ x : Registro, enLista acc x = true ↔ enLista vistos x = true) →
    (rs.foldl dedupPaso (acc, c)).1 = acc ++ sinVistos vistos rs
  | [], vistos, acc, c, _ => by simp [sinVistos]
  | r :: rs, vistos, acc, c, hinv => by
      rw [List.foldl_cons]
      by_cases h : enLista acc r = true
      · have hv : enLista vistos r = true := (hinv r).1 h
        rw [show dedupPaso (acc, c) r = (acc, c + 1) from by simp [dedupPaso, h],
          show sinVistos vistos (r :: rs) = sinVistos (vistos ++ [r]) rs from by
            simp [sinVistos, hv]]
        apply dedup_mantiene rs (vistos ++ [r]) acc (c + 1)
        intro x
        rw [enLista_append_singleton, ← hinv x]
        constructor
        · exact Or.inl
        · rintro (hx | hx)
          · exact hx
          · rcases enLista_iff.1 h with ⟨e, he, her⟩
            exact enLista_iff.2 ⟨e, he, eqb_trans her hx⟩
      · have hv : enLista vistos r = false := by
          rcases Bool.eq_false_or_eq_true (enLista vistos r) with ht | hf
          · exact absurd ((hinv r).2 ht) h
          · exact hf
        rw [show dedupPaso (acc, c) r = (acc ++ [r], c) from by simp [dedupPaso, h],
          show sinVistos vistos (r :: rs) = r :: sinVistos (vistos ++ [r]) rs from by
            simp [sinVistos, hv]]
        rw [dedup_mantiene rs (vistos ++ [r]) (acc ++ [r]) c]
        · simp
        · intro x
          rw [enLista_append_singleton, enLista_append_singleton, hinv x]
  termination_by rs => rs.length

/-- The kept list is pairwise structurally distinct. -/
theorem dedup_pares : ∀ (rs : List Registro) (acc : List Registro) (c : ℕ),
    acc.Pairwise (fun a b => a.eqb b = false) →
    (rs.foldl dedupPaso (acc, c)).1.Pairwise (fun a b => a.eqb b = false)
  | [], acc, c, hacc => by simpa using hacc
  | r :: rs, acc, c, hacc => by
      rw [List.foldl_cons]
      by_cases h : enLista acc r = true
      · rw [show dedupPaso (acc, c) r = (acc, c + 1) from by simp [dedupPaso, h]]
        exact dedup_pares rs acc (c + 1) hacc
      · rw [show dedupPaso (acc, c) r = (acc ++ [r], c) from by simp [dedupPaso, h]]
        apply dedup_pares rs (acc ++ [r]) c
        rw [List.pairwise_append]
        refine ⟨hacc, List.pairwise_singleton _ _, ?_⟩
        intro a ha b hb
        rw [List.mem_singleton] at hb
        subst hb
        rcases Bool.eq_false_or_eq_true (a.eqb b) with ht | hf
        · exact absurd (enLista_iff.2 ⟨a, ha, ht⟩) h
        · exact hf

/-- Running the dedup loop over a pairwise-distinct list keeps everything
and removes nothing. -/
theorem dedup_replay : ∀ (u : List Registro) (acc : List Registro) (c : ℕ),
    (acc ++ u).Pairwise (fun a b => a.eqb b = false) →
    u.foldl dedupPaso (acc, c) = (acc ++ u, c)
  | [], acc, c, _ => by simp
  | r :: u, acc, c, hp => by
      have hnot : enLista acc r = false := by
        rcases Bool.eq_false_or_eq_true (enLista acc r) with ht | hf
        swap
        · exact hf
        · rcases enLista_iff.1 ht with ⟨e, he, her⟩
          have := (List.pairwise_append.1 hp).2.2 e he r (List.mem_cons_self _ _)
          rw [this] at her
          exact absurd her (by simp)
      rw [List.foldl_cons,
        show dedupPaso (acc, c) r = (acc ++ [r], c) from by simp [dedupPaso, hnot]]
      rw [dedup_replay u (acc ++ [r]) c (by simpa using hp)]
      simp

/-- **C7.** `eliminar_duplicados` keeps, in order, exactly the records with
no structurally-equal predecessor (the first occurrence of each group of
structurally-equal records); the returned count is the number dropped
(kept + removed = original length); and running it again on the result
removes `0` records and leaves the dataset unchanged. -/
theorem eliminar_duplicados_correcto (d : Dataset) :
    (eliminar_duplicados d).1.registros = sinVistos [] d.registros ∧
    (eliminar_duplicados d).2 + (eliminar_duplicados d).1.registros.length
      = d.registros.length ∧
    eliminar_duplicados (eliminar_duplicados d).1 = ((eliminar_duplicados d).1, 0) := by
  have hkeep : (d.registros.foldl dedupPaso ([], 0)).1 = sinVistos [] d.registros := by
    have := dedup_mantiene d.registros [] [] 0 (fun x => by simp [enLista])
    simpa using this
  refine ⟨hkeep, ?_, ?_⟩
  · have := dedup_longitud d.registros [] 0
    simpa [eliminar_duplicados, hkeep] using this
  · have hpw : (d.registros.foldl dedupPaso ([], 0)).1.Pairwise
        (fun a b => a.eqb b = false) :=
      dedup_pares d.registros [] 0 (List.Pairwise.nil)
    have hreplay := dedup_replay (d.registros.foldl dedupPaso ([], 0)).1 [] 0
      (by simpa using hpw)
    simp only [List.nil_append] at hreplay
    simp [eliminar_duplicados, hreplay]

/-! ### Order lemmas for the sort (C4) -/

theorem lexLe_cons_iff {x y : Char} {xs ys : List Char} :
    lexLe (x :: xs) (y :: ys) = true ↔
      x.toNat < y.toNat ∨ (x.toNat = y.toNat ∧ lexLe xs ys = true) := by
  simp only [lexLe]
  split_ifs with h1 h2
  · simp only [true_iff]
    exact Or.inl h1
  · simp only [Bool.false_eq_true, false_iff]
    rintro (h | ⟨he, -⟩) <;> omega
  · have he : x.toNat = y.toNat := by omega
    simp [he]

theorem lexLe_refl : ∀ l : List Char, lexLe l l = true
  | [] => rfl
  | x :: xs => by
      rw [lexLe_cons_iff]
      exact Or.inr ⟨rfl, lexLe_refl xs⟩

theorem lexLe_trans : ∀ a b c : List Char,
    lexLe a b = true → lexLe b c = true → lexLe a c = true
  | [], _, _, _, _ => rfl
  | _ :: _, [], _, hab, _ => by simp [lexLe] at hab
  | _ :: _, _ :: _, [], _, hbc => by simp [lexLe] at hbc
  | x :: xs, y :: ys, z :: zs, hab, hbc => by
      rw [lexLe_cons_iff] at hab hbc ⊢
      rcases hab with h | ⟨he, ht⟩ <;> rcases hbc with h' | ⟨he', ht'⟩
      · exact Or.inl (by omega)
      · exact Or.inl (by omega)
      · exact Or.inl (by omega)
      · exact Or.inr ⟨by omega, lexLe_trans xs ys zs ht ht'⟩

theorem lexLe_total : ∀ a b : List Char, lexLe a b = true ∨ lexLe b a = true
  | [], _ => Or.inl rfl
  | _ :: _, [] => Or.inr rfl
  | x :: xs, y :: ys => by
      rw [lexLe_cons_iff, lexLe_cons_iff]
      rcases Nat.lt_trichotomy x.toNat y.toNat with h | h | h
      · exact Or.inl (Or.inl h)
      · rcases lexLe_total xs ys with ht | ht
        · exact Or.inl (Or.inr ⟨h, ht⟩)
        · exact Or.inr (Or.inr ⟨h.symm, ht⟩)
      · exact Or.inr (Or.inl h)

theorem strLe_refl (s : String) : strLe s s = true := lexLe_refl _

theorem ordenarLe_trans (campo : String) (reverso : Bool) :
    ∀ a b c : Registro, ordenarLe campo reverso a b = true →
      ordenarLe campo reverso b c = true → ordenarLe campo reverso a c = true := by
  intro a b c hab hbc
  cases reverso <;> simp only [ordenarLe, if_true, if_false, Bool.false_eq_true] at *
  · exact lexLe_trans _ _ _ hab hbc
  · exact lexLe_trans _ _ _ hbc hab

theorem ordenarLe_total (campo : String) (reverso : Bool) :
    ∀ a b : Registro, (ordenarLe campo reverso a b || ordenarLe campo reverso b a) = true := by
  intro a b
  cases reverso <;> simp only [ordenarLe, if_true, if_false, Bool.or_eq_true] <;>
    rcases lexLe_total (sortKey campo a).data (sortKey campo b).data with h | h <;>
    simp [strLe, h]

/-- A stable sort leaves the relative order of records with any fixed key
unchanged: filtering the sorted list down to one key value gives the same
list as filtering the input. -/
theorem mergeSort_filter_eq (l : List Registro) (le : Registro → Registro → Bool)
    (htrans : ∀ a b c, le a b = true → le b c = true → le a c = true)
    (htotal : ∀ a b, (le a b || le b a) = true)
    (p : Registro → Bool) (hp : ∀ a b, p a = true → p b = true → le a b = true) :
    (l.mergeSort le).filter p = l.filter p := by
  have hA : (l.filter p).Pairwise (fun a b => le a b = true) :=
    List.pairwise_of_forall_mem_list
      (fun a ha b hb => hp a b (List.of_mem_filter ha) (List.of_mem_filter hb))
  have h1 : (l.filter p).Sublist (l.mergeSort le) :=
    List.sublist_mergeSort htrans htotal hA (List.filter_sublist l)
  have hid : (l.filter p).filter p = l.filter p :=
    List.filter_eq_self.2 (fun a ha => List.of_mem_filter ha)
  have h2 : (l.filter p).Sublist ((l.mergeSort le).filter p) := by
    have := h1.filter p
    rwa [hid] at this
  have hperm : ((l.mergeSort le).filter p).Perm (l.filter p) :=
    (List.mergeSort_perm l le).filter p
  exact (h2.eq_of_length hperm.length_eq.symm).symm

/-- **C4.** `ordenar` permutes the records; with `reverso = false` they end
up in ascending order of the text key (the field's value, absent values
keyed as `""`), with `reverso = true` in descending order; and records
with equal keys keep their prior relative order (stability). -/
theorem ordenar_correcto (d : Dataset) (campo : String) (reverso : Bool) :
    (d.ordenar campo reverso).registros.Perm d.registros ∧
    (reverso = false → (d.ordenar campo reverso).registros.Pairwise
        (fun a b => strLe (sortKey campo a) (sortKey campo b) = true)) ∧
    (reverso = true → (d.ordenar campo reverso).registros.Pairwise
        (fun a b => strLe (sortKey campo b) (sortKey campo a) = true)) ∧
    (∀ k : String, (d.ordenar campo reverso).registros.filter (fun r => sortKey campo r == k)
        = d.registros.filter (fun r => sortKey campo r == k)) := by
  refine ⟨List.mergeSort_perm _ _, ?_, ?_, ?_⟩
  · rintro rfl
    have := List.sorted_mergeSort
      (ordenarLe_trans campo false) (ordenarLe_total campo false) d.registros
    exact this.imp (fun {a b} h => by simpa [ordenarLe] using h)
  · rintro rfl
    have := List.sorted_mergeSort
      (ordenarLe_trans campo true) (ordenarLe_total campo true) d.registros
    exact this.imp (fun {a b} h => by simpa [ordenarLe] using h)
  · intro k
    apply mergeSort_filter_eq _ _ (ordenarLe_trans campo reverso) (ordenarLe_total campo reverso)
    intro a b ha hb
    have ha' : sortKey campo a = k := by simpa using ha
    have hb' : sortKey campo b = k := by simpa using hb
    cases reverso <;> simp [ordenarLe, ha', hb', strLe_refl]

/-! ### Grouped totals (C6) -/

theorem sumarCampo_eq_sum (regs : List Registro) (campo : String) :
    sumarCampo regs campo =
      (regs.map (fun r => (pyFloatOpt (r.obtener_campo campo)).getD 0)).sum := by
  have key : ∀ (rs : List Registro) (a : ℚ),
      rs.foldl
        (fun total r =>
          match pyFloatOpt (r.obtener_campo campo) with
          | some x => total + x
          | none => total)
        a = a + (rs.map (fun r => (pyFloatOpt (r.obtener_campo campo)).getD 0)).sum := by
    intro rs
    induction rs with
    | nil => intro a; simp
    | cons r t ih =>
        intro a
        rw [List.foldl_cons, List.map_cons, List.sum_cons]
        cases h : pyFloatOpt (r.obtener_campo campo) with
        | some x => rw [ih (a + x)]; simp [h]; ring
        | none => rw [ih a]; simp [h]
  have := key regs 0
  rw [sumarCampo, this, zero_add]

theorem lookup_map_pair {β : Type _} (l : List String) (f : String → β) (k : String) :
    (l.map (fun v => (v, f v))).lookup k = if k ∈ l then some (f k) else none := by
  induction l with
  | nil => simp
  | cons a t ih =>
      rw [List.map_cons, List.lookup_cons]
      by_cases hk : k = a
      · subst hk
        rw [show (k == k) = true from beq_self_eq_true k]
        simp
      · rw [show (k == a) = false from beq_eq_false_iff_ne.mpr hk]
        rw [ih]
        simp [hk]

/-- **C6.** Composing `agrupar_por_campo` with the per-group summation
(`calcular_totales_por_grupo`) yields, at every distinct non-null value
`v` of the grouping field, the rounded manual sum of the coercible
`campo_suma`-values over the records whose grouping field equals `v`;
and the map's keys are exactly the distinct non-null grouping values. -/
theorem totales_por_grupo_correcto (d : Dataset) (f s v : String)
    (hv : v ∈ d.obtener_valores_unicos f) :
    (calcular_totales_por_grupo d f s).lookup v =
      some (round2 (sumaManualGrupo d f s v)) ∧
    ∀ k : String, ((calcular_totales_por_grupo d f s).lookup k).isSome ↔
      k ∈ d.obtener_valores_unicos f := by
  have hmap : calcular_totales_por_grupo d f s =
      (d.obtener_valores_unicos f).map
        (fun v => (v, round2 (sumarCampo (filtrar_por_campo d f (some v)).registros s))) := by
    rw [calcular_totales_por_grupo, agrupar_por_campo, List.map_map]
    rfl
  constructor
  · rw [hmap, lookup_map_pair, if_pos hv, sumarCampo_eq_sum]
    rfl
  · intro k
    rw [hmap, lookup_map_pair]
    by_cases hk : k ∈ d.obtener_valores_unicos f <;> simp [hk]

/-- Witness for C6, scenario A: `total` = "10","20","30", `region` =
"A","B","A" — the theorem applied at `v = "A"`, together with the
evaluated totals {A: 40, B: 20} and the grand total 60. -/
theorem totales_por_grupo_testigo :
    (calcular_totales_por_grupo dsVentas "region" "total").lookup "A" =
      some (round2 (sumaManualGrupo dsVentas "region" "total" "A")) ∧
    (calcular_totales_por_grupo dsVentas "region" "total").lookup "A" = some 40 ∧
    (calcular_totales_por_grupo dsVentas "region" "total").lookup "B" = some 20 ∧
    calcular_ventas_totales dsVentas = 60 := by
  refine ⟨(totales_por_grupo_correcto dsVentas "region" "total" "A" (by decide)).1,
    ?_, ?_, ?_⟩ <;> with_unfolding_all decide

/-! ### The sales analyzer's accumulator (C2) -/

theorem ddEnsure_lookup (acc : List (String × ℚ)) (k0 k : String) :
    (ddEnsure acc k0).lookup k =
      if k = k0 then some ((acc.lookup k0).getD 0) else acc.lookup k := by
  unfold ddEnsure ddHasKey
  cases h : acc.lookup k0 with
  | some q =>
      rw [if_pos (by simp [h])]
      by_cases hk : k = k0 <;> simp [h, hk]
  | none =>
      rw [if_neg (by simp [h])]
      rw [lookup_append]
      by_cases hk : k = k0
      · subst hk
        rw [h]
        simp [List.lookup_cons]
      · rw [show ([(k0, (0 : ℚ))].lookup k) = none from by
          simp [List.lookup_cons, beq_eq_false_iff_ne.mpr hk]]
        simp [hk]

theorem ddSet_lookup (acc : List (String × ℚ)) (k0 k : String) (q : ℚ) :
    (ddSet acc k0 q).lookup k =
      if k = k0 then (acc.lookup k0).map (fun _ => q) else acc.lookup k := by
  induction acc with
  | nil => by_cases hk : k = k0 <;> simp [ddSet, hk]
  | cons p t ih =>
      obtain ⟨a, b⟩ := p
      by_cases hak : a = k0
      · subst hak
        rw [show ddSet ((a, b) :: t) a q = (a, q) :: ddSet t a q from by
          simp [ddSet]]
        by_cases hk : k = a
        · subst hk
          simp [List.lookup_cons]
        · rw [List.lookup_cons, List.lookup_cons,
            show (k == a) = false from beq_eq_false_iff_ne.mpr hk]
          rw [ih]
          simp [List.lookup_cons, hk, beq_eq_false_iff_ne.mpr hk]
      · rw [show ddSet ((a, b) :: t) k0 q = (a, b) :: ddSet t k0 q from by
          simp [ddSet, hak]]
        by_cases hk : k = a
        · have hkk0 : ¬ k = k0 := fun h' => hak (hk ▸ h')
          rw [List.lookup_cons, List.lookup_cons,
            show (k == a) = true from beq_iff_eq.mpr hk, if_neg hkk0]
          simp [List.lookup_cons, beq_iff_eq.mpr hk]
        · rw [List.lookup_cons, List.lookup_cons,
            show (k == a) = false from beq_eq_false_iff_ne.mpr hk]
          rw [ih]
          by_cases hk0 : k = k0
          · have hk0a : (k0 == a) = false :=
              beq_eq_false_iff_ne.mpr (fun h' => hak h'.symm)
            simp [List.lookup_cons, hk0, hk0a]
          · simp [List.lookup_cons, hk0, beq_eq_false_iff_ne.mpr hk]

theorem ventasPaso_eq (g s : String) (acc : List (String × ℚ)) (r : Registro) :
    ventasPaso g s acc r =
      if procesaVenta g s r then
        match pyFloatOpt (r.obtener_campo s) with
        | some x => ddSet (ddEnsure acc (claveVenta g r)) (claveVenta g r)
            (ddGet (ddEnsure acc (claveVenta g r)) (claveVenta g r) + x)
        | none => ddEnsure acc (claveVenta g r)
      else acc := rfl

theorem contribVenta_cons (g s k : String) (r : Registro) (rs : List Registro) :
    contribVenta g s k (r :: rs) =
      (if procesaVenta g s r && (claveVenta g r == k)
        then (pyFloatOpt (r.obtener_campo s)).getD 0 else 0) + contribVenta g s k rs := by
  by_cases h : procesaVenta g s r && (claveVenta g r == k) <;>
    simp [contribVenta, h]

theorem tocaVenta_cons (g s k : String) (r : Registro) (rs : List Registro) :
    tocaVenta g s k (r :: rs) =
      ((procesaVenta g s r && (claveVenta g r == k)) || tocaVenta g s k rs) := by
  simp [tocaVenta]

/-- Lookup of a key in the state of the `_analizar_por_campo` loop: the
accumulator's prior value (if any) plus the contribution of the remaining
records; a fresh key appears exactly when some remaining record is
processed under it. -/
theorem ventas_fold_lookup (g s k : String) (rs : List Registro) :
    ∀ acc : List (String × ℚ),
      (rs.foldl (ventasPaso g s) acc).lookup k =
        match acc.lookup k with
        | some q => some (q + contribVenta g s k rs)
        | none =>
            if tocaVenta g s k rs then some (contribVenta g s k rs) else none := by
  induction rs with
  | nil =>
      intro acc
      cases h : acc.lookup k <;> simp [contribVenta, tocaVenta, h]
  | cons r rs ih =>
      intro acc
      rw [List.foldl_cons, ih (ventasPaso g s acc r), contribVenta_cons, tocaVenta_cons]
      by_cases hpr : procesaVenta g s r = true
      · have hstep : ∀ k' : String, (ventasPaso g s acc r).lookup k' =
            if k' = claveVenta g r
            then some ((acc.lookup (claveVenta g r)).getD 0 +
              (pyFloatOpt (r.obtener_campo s)).getD 0)
            else acc.lookup k' := by
          intro k'
          rw [ventasPaso_eq, if_pos hpr]
          cases hval : pyFloatOpt (r.obtener_campo s) with
          | some x =>
              rw [ddSet_lookup, ddEnsure_lookup]
              by_cases hk' : k' = claveVenta g r <;>
                simp [hk', ddGet, ddEnsure_lookup, hval]
          | none =>
              rw [ddEnsure_lookup]
              by_cases hk' : k' = claveVenta g r <;> simp [hk', hval]
        rw [hstep k]
        by_cases hk : k = claveVenta g r
        · rw [if_pos hk, hk, hpr]
          cases hacc : acc.lookup (claveVenta g r) with
          | some q => simp [hacc, add_assoc]
          | none => simp [hacc]
        · have hbeq : (claveVenta g r == k) = false :=
            beq_eq_false_iff_ne.mpr (fun h' => hk h'.symm)
          rw [if_neg hk, hbeq]
          cases hacc : acc.lookup k <;> simp [hacc]
      · have hpr' : procesaVenta g s r = false := by
          rcases Bool.eq_false_or_eq_true (procesaVenta g s r) with ht | hf
          · exact absurd ht hpr
          · exact hf
        rw [show ventasPaso g s acc r = acc from by rw [ventasPaso_eq, hpr']; rfl, hpr']
        cases hacc : acc.lookup k <;> simp [hacc]

theorem lookup_map_value {β γ : Type _} (m : List (String × β)) (f : β → γ) (k : String) :
    (m.map (fun p => (p.1, f p.2))).lookup k = (m.lookup k).map f := by
  induction m with
  | nil => simp
  | cons p t ih =>
      obtain ⟨a, b⟩ := p
      rw [List.map_cons, List.lookup_cons, List.lookup_cons]
      by_cases hk : k = a
      · rw [show (k == a) = true from beq_iff_eq.mpr hk]
        rfl
      · rw [show (k == a) = false from beq_eq_false_iff_ne.mpr hk]
        exact ih

/-- **C2 (amended).** When every record carries a truthy (present,
non-empty) value both for the grouping field `g` and for `total`, the
sales analyzer's per-group map agrees, key by key, with the transformer's
`calcular_totales_por_grupo` for the same fields; and on a non-empty
dataset the `por_region`/`por_producto`/`por_categoria`/`por_vendedor`
components of `analizar` are exactly `_analizar_por_campo` of the
respective field over `total`. -/
theorem ventas_grupos_coinciden (d : Dataset) (g : String)
    (htruthy : ∀ r ∈ d.registros, pyTruthy (r.obtener_campo g) = true ∧
      pyTruthy (r.obtener_campo "total") = true) :
    (∀ k : String, (analizar_por_campo d g "total").lookup k =
        (calcular_totales_por_grupo d g "total").lookup k) ∧
    (d.esta_vacio = false →
      (analizarVentas d).por_region = analizar_por_campo d "region" "total" ∧
      (analizarVentas d).por_producto = analizar_por_campo d "producto" "total" ∧
      (analizarVentas d).por_categoria = analizar_por_campo d "categoria" "total" ∧
      (analizarVentas d).por_vendedor = analizar_por_campo d "vendedor" "total") := by
  constructor
  · intro k
    have hL : (analizar_por_campo d g "total").lookup k =
        ((d.registros.foldl (ventasPaso g "total") []).lookup k).map round2 := by
      rw [analizar_por_campo, lookup_map_value]
    rw [hL, ventas_fold_lookup]
    simp only [List.lookup_nil]
    have hmap : calcular_totales_por_grupo d g "total" =
        (d.obtener_valores_unicos g).map
          (fun v => (v, round2 (sumarCampo (filtrar_por_campo d g (some v)).registros "total"))) := by
      rw [calcular_totales_por_grupo, agrupar_por_campo, List.map_map]
      rfl
    rw [hmap, lookup_map_pair]
    have htoca : tocaVenta g "total" k d.registros = true ↔
        k ∈ d.obtener_valores_unicos g := by
      rw [tocaVenta, List.any_eq_true]
      unfold Dataset.obtener_valores_unicos Dataset.obtener_valores_campo
      rw [List.mem_dedup, List.mem_filterMap]
      constructor
      · rintro ⟨r, hr, hcond⟩
        rw [Bool.and_eq_true] at hcond
        obtain ⟨hp, hkk⟩ := hcond
        refine ⟨r, hr, ?_⟩
        cases hob : r.obtener_campo g with
        | none =>
            rw [procesaVenta, Bool.and_eq_true] at hp
            rw [hob] at hp
            exact absurd hp.1 (by simp [pyTruthy])
        | some t =>
            have : claveVenta g r = k := beq_iff_eq.mp hkk
            rw [claveVenta, hob] at this
            simp at this
            exact congrArg some this
      · rintro ⟨r, hr, hob⟩
        refine ⟨r, hr, ?_⟩
        rw [Bool.and_eq_true]
        refine ⟨?_, ?_⟩
        · rw [procesaVenta, Bool.and_eq_true]
          exact ⟨(htruthy r hr).1, (htruthy r hr).2⟩
        · rw [claveVenta, hob]
          simp
    have hcontrib : contribVenta g "total" k d.registros =
        sumarCampo (filtrar_por_campo d g (some k)).registros "total" := by
      rw [sumarCampo_eq_sum, contribVenta]
      have hreg : (filtrar_por_campo d g (some k)).registros =
          d.registros.filter (fun r => r.obtener_campo g == some k) := rfl
      rw [hreg]
      have hfil : d.registros.filter (fun r => procesaVenta g "total" r && (claveVenta g r == k))
          = d.registros.filter (fun r => r.obtener_campo g == some k) := by
        apply List.filter_congr
        intro r hr
        have hp : procesaVenta g "total" r = true := by
          rw [procesaVenta, Bool.and_eq_true]
          exact ⟨(htruthy r hr).1, (htruthy r hr).2⟩
        rw [hp, Bool.true_and]
        cases hob : r.obtener_campo g with
        | none =>
            have := (htruthy r hr).1
            rw [hob] at this
            exact absurd this (by simp [pyTruthy])
        | some t =>
            rw [claveVenta, hob]
            simp
      rw [hfil]
    by_cases hmem : k ∈ d.obtener_valores_unicos g
    · rw [if_pos hmem, if_pos (htoca.2 hmem), hcontrib]
      simp
    · rw [if_neg hmem, if_neg (fun ht => hmem (htoca.1 ht))]
      simp
  · intro hnv
    refine ⟨?_, ?_, ?_, ?_⟩ <;> simp [analizarVentas, hnv]

/-- Witness for the amended C2 at scenario A's dataset (every record has
truthy `region` and `total`): the two maps agree at key "A". -/
theorem ventas_grupos_testigo :
    (analizar_por_campo dsVentas "region" "total").lookup "A" =
      (calcular_totales_por_grupo dsVentas "region" "total").lookup "A" :=
  (ventas_grupos_coinciden dsVentas "region" (by decide)).1 "A"

/-! ### Mode of a tied sample (C1) -/

/-- **C1.** Evaluation of the statistical analyzer at the failing input:
the field `v` of `dsModa` coerces to the values `[1, 2]`, whose
multiplicities tie (no unique mode exists), yet the reported mode is
`some 1` — the first-encountered mode, per `statistics.mode` on every
supported Python (≥ 3.8) — and not `null` as the code's own
`except StatisticsError` branch (dead since 3.8) intends. -/
theorem moda_empate_no_nula :
    analizar_campo dsModa "v" =
      some (.numericas (estadisticas_numericas [1, 2])) ∧
    (estadisticas_numericas [(1 : ℚ), 2]).moda = some 1 ∧
    [(1 : ℚ), 2].count 1 = [(1 : ℚ), 2].count 2 := by
  with_unfolding_all decide

/-! ### Sales-analyzer vs transformer grouping (C2): counterexample -/

/-- **C2, counterexample.** On a dataset whose single record has
`region = "A"` and no `total` field, the sales analyzer's `por_region` map
is empty (the record is skipped because its `total` value is falsy), while
the transformer's `calcular_totales_por_grupo` still creates the group
`"A"` with total `0`. -/
theorem ventas_grupos_contraejemplo :
    (analizarVentas dsSinTotal).por_region.lookup "A" = none ∧
    (calcular_totales_por_grupo dsSinTotal "region" "total").lookup "A" = some 0 := by
  with_unfolding_all decide

/-! ### Frequency-map lemmas (C3) -/

theorem lookup_eq_none_iff {β : Type _} {l : List (String × β)} {k : String} :
    l.lookup k = none ↔ k ∉ l.map Prod.fst := by
  induction l with
  | nil => simp
  | cons p t ih =>
      obtain ⟨a, b⟩ := p
      rw [List.lookup_cons]
      by_cases hk : k = a
      · rw [show (k == a) = true from beq_iff_eq.mpr hk]
        simp [hk]
      · rw [show (k == a) = false from beq_eq_false_iff_ne.mpr hk]
        simp [hk, ih]

theorem nodup_keys_mem_lookup {β : Type _} {l : List (String × β)}
    (hnd : (l.map Prod.fst).Nodup) {p : String × β} (hp : p ∈ l) :
    l.lookup p.1 = some p.2 := by
  induction l with
  | nil => simp at hp
  | cons q t ih =>
      rw [List.map_cons, List.nodup_cons] at hnd
      rcases List.mem_cons.1 hp with rfl | hpt
      · rw [List.lookup_cons, show (p.1 == p.1) = true from beq_self_eq_true p.1]
      · have hne : p.1 ≠ q.1 := by
          intro he
          exact hnd.1 (he ▸ List.mem_map_of_mem Prod.fst hpt)
        rw [List.lookup_cons, show (p.1 == q.1) = false from beq_eq_false_iff_ne.mpr hne]
        exact ih hnd.2 hpt

theorem lookup_map_keyed {β γ : Type _} (m : List (String × β)) (g : String → β → γ)
    (k : String) :
    (m.map (fun p => (p.1, g p.1 p.2))).lookup k = (m.lookup k).map (g k) := by
  induction m with
  | nil => simp
  | cons p t ih =>
      obtain ⟨a, b⟩ := p
      rw [List.map_cons, List.lookup_cons, List.lookup_cons]
      by_cases hk : k = a
      · rw [show (k == a) = true from beq_iff_eq.mpr hk]
        subst hk
        rfl
      · rw [show (k == a) = false from beq_eq_false_iff_ne.mpr hk]
        exact ih

theorem frecPaso_lookup (acc : List (String × ℕ)) (u k : String) :
    (frecPaso acc u).lookup k =
      if k = u then some ((acc.lookup u).getD 0 + 1) else acc.lookup k := by
  rw [frecPaso]
  have hmapeq : acc.map (fun p => if p.1 == u then (p.1, p.2 + 1) else p) =
      acc.map (fun p => (p.1, if p.1 == u then p.2 + 1 else p.2)) := by
    apply List.map_congr_left
    intro p _
    by_cases hp : p.1 = u
    · simp [beq_iff_eq.mpr hp]
    · simp [beq_eq_false_iff_ne.mpr hp]
  by_cases hs : (acc.lookup u).isSome
  · rw [if_pos hs, hmapeq,
      lookup_map_keyed acc (fun a b => if (a == u) = true then b + 1 else b) k]
    obtain ⟨c, hc⟩ := Option.isSome_iff_exists.mp hs
    by_cases hk : k = u
    · subst hk
      simp [hc]
    · rw [if_neg hk]
      rw [show ∀ o : Option ℕ, o.map (fun b => if (k == u) = true then b + 1 else b) = o from by
        intro o
        cases o <;> simp [beq_eq_false_iff_ne.mpr hk]]
  · rw [if_neg hs, lookup_append]
    have hnone : acc.lookup u = none := by
      cases h : acc.lookup u
      · rfl
      · rw [h] at hs
        simp at hs
    by_cases hk : k = u
    · subst hk
      rw [hnone]
      simp [List.lookup_cons]
    · rw [if_neg hk,
        show ([(u, (1 : ℕ))].lookup k) = none from by
          simp [List.lookup_cons, beq_eq_false_iff_ne.mpr hk]]
      simp

theorem frec_fold_lookup (v : String) (l : List String) :
    ∀ acc : List (String × ℕ),
      ((l.foldl frecPaso acc).lookup v) =
        match acc.lookup v with
        | some c => some (c + l.count v)
        | none => if v ∈ l then some (l.count v) else none := by
  induction l with
  | nil =>
      intro acc
      cases h : acc.lookup v <;> simp [h]
  | cons u t ih =>
      intro acc
      rw [List.foldl_cons, ih (frecPaso acc u), frecPaso_lookup]
      by_cases hv : v = u
      · subst hv
        rw [if_pos rfl]
        cases hacc : acc.lookup v with
        | some c => simp [hacc, List.count_cons]; omega
        | none => simp [hacc, List.count_cons]; omega
      · rw [if_neg hv]
        have hcnt : (u :: t).count v = t.count v := by
          simp [List.count_cons, hv]
        cases hacc : acc.lookup v with
        | some c => simp [hacc, hcnt]
        | none => simp [hacc, hcnt, hv]

/-- The frequency dict maps each occurring value to its multiplicity and
holds no other key. -/
theorem frecuencias_lookup (valores : List String) (v : String) :
    (frecuenciasDe valores).lookup v =
      if v ∈ valores then some (valores.count v) else none := by
  rw [frecuenciasDe, frec_fold_lookup]
  rfl

theorem frec_keys_nodup (valores : List String) :
    ((frecuenciasDe valores).map Prod.fst).Nodup := by
  rw [frecuenciasDe]
  have key : ∀ (l : List String) (acc : List (String × ℕ)),
      (acc.map Prod.fst).Nodup → ((l.foldl frecPaso acc).map Prod.fst).Nodup := by
    intro l
    induction l with
    | nil => intro acc h; simpa using h
    | cons u t ih =>
        intro acc hacc
        rw [List.foldl_cons]
        apply ih
        rw [frecPaso]
        by_cases hs : (acc.lookup u).isSome
        · rw [if_pos hs]
          have : (acc.map (fun p => if p.1 == u then (p.1, p.2 + 1) else p)).map Prod.fst =
              acc.map Prod.fst := by
            rw [List.map_map]
            apply List.map_congr_left
            intro p _
            by_cases hp : p.1 = u <;> simp [hp]
          rw [this]
          exact hacc
        · rw [if_neg hs]
          have hnotin : u ∉ acc.map Prod.fst := by
            rw [← lookup_eq_none_iff]
            cases h : acc.lookup u
            · rfl
            · rw [h] at hs
              simp at hs
          simp [List.nodup_append, hacc, hnotin]
  exact key valores [] (by simp)

theorem exists_max_pair : ∀ m : List (String × ℕ), m ≠ [] →
    ∃ p ∈ m, ∀ q ∈ m, q.2 ≤ p.2
  | [], h => absurd rfl h
  | [p], _ => ⟨p, List.mem_singleton_self p, by
      intro q hq
      rw [List.mem_singleton] at hq
      exact hq ▸ le_refl _⟩
  | p :: q :: t, _ => by
      obtain ⟨p', hp', hmax⟩ := exists_max_pair (q :: t) (by simp)
      by_cases hle : p'.2 ≤ p.2
      · refine ⟨p, List.mem_cons_self _ _, ?_⟩
        intro r hr
        rcases List.mem_cons.1 hr with rfl | hrt
        · exact le_refl _
        · exact le_trans (hmax r hrt) hle
      · refine ⟨p', List.mem_cons_of_mem _ hp', ?_⟩
        intro r hr
        rcases List.mem_cons.1 hr with rfl | hrt
        · exact le_of_not_le hle
        · exact hmax r hrt

/-- `max(frecuencias, key=frecuencias.get)` on a nonempty dict returns a
key of maximal count. -/
theorem maxPorFrecuencia_spec (m : List (String × ℕ)) (hne : m ≠ []) :
    ∃ p : String × ℕ, maxPorFrecuencia m = some p.1 ∧ p ∈ m ∧ ∀ q ∈ m, q.2 ≤ p.2 := by
  obtain ⟨p₀, hp₀, hmax⟩ := exists_max_pair m hne
  have hsome : (m.find? (fun p => m.all (fun q => q.2 ≤ p.2))).isSome := by
    rw [List.find?_isSome]
    refine ⟨p₀, hp₀, ?_⟩
    rw [List.all_eq_true]
    intro q hq
    simpa using hmax q hq
  obtain ⟨pf, hpf⟩ := Option.isSome_iff_exists.mp hsome
  refine ⟨pf, ?_, List.mem_of_find?_eq_some hpf, ?_⟩
  · rw [maxPorFrecuencia, hpf]
    rfl
  · have := List.find?_some hpf
    rw [List.all_eq_true] at this
    intro q hq
    simpa using this q hq

/-! ### The per-field entries of `analizar` (C3) -/

theorem analizar_fold_not_mem (d : Dataset) (campo : String) :
    ∀ (cs : List String) (acc : List (String × Estadisticas)), campo ∉ cs →
      ((cs.foldl (analizarPaso d) acc).lookup campo) = acc.lookup campo := by
  intro cs
  induction cs with
  | nil => intro acc _; rfl
  | cons c t ih =>
      intro acc hnotin
      rw [List.mem_cons, not_or] at hnotin
      rw [List.foldl_cons, ih _ hnotin.2]
      rw [analizarPaso]
      cases analizar_campo d c with
      | some e =>
          rw [lookup_append,
            show ([(c, e)].lookup campo) = none from by
              simp [List.lookup_cons, beq_eq_false_iff_ne.mpr hnotin.1]]
          simp
      | none => rfl

theorem analizar_fold_mem (d : Dataset) (campo : String) :
    ∀ (cs : List String) (acc : List (String × Estadisticas)),
      campo ∈ cs → cs.Nodup → acc.lookup campo = none →
      ((cs.foldl (analizarPaso d) acc).lookup campo) = analizar_campo d campo := by
  intro cs
  induction cs with
  | nil => intro acc h; simp at h
  | cons c t ih =>
      intro acc hmem hnd hacc
      rw [List.nodup_cons] at hnd
      rw [List.foldl_cons]
      by_cases hc : campo = c
      · subst hc
        rw [analizar_fold_not_mem d campo t _ hnd.1]
        rw [analizarPaso]
        cases he : analizar_campo d campo with
        | some e =>
            rw [lookup_append, hacc,
              show ([(campo, e)].lookup campo) = some e from by
                simp [List.lookup_cons]]
            rfl
        | none => exact hacc
      · have hmt : campo ∈ t := by
          rcases List.mem_cons.1 hmem with h' | h'
          · exact absurd h' hc
          · exact h'
        apply ih _ hmt hnd.2
        rw [analizarPaso]
        cases analizar_campo d c with
        | some e =>
            rw [lookup_append, hacc,
              show ([(c, e)].lookup campo) = none from by
                simp [List.lookup_cons, beq_eq_false_iff_ne.mpr hc]]
            rfl
        | none => exact hacc

/-- On a non-empty dataset with distinct schema fields, the `campos` map
of `analizar` holds, at each schema field, exactly `_analizar_campo`'s
result. -/
theorem analizar_lookup (d : Dataset) (campo : String)
    (hnd : d.obtener_campos.Nodup) (hmem : campo ∈ d.obtener_campos) :
    (analizar d).campos.lookup campo = analizar_campo d campo := by
  rw [analizar]
  by_cases hv : d.esta_vacio = true
  · exfalso
    rw [Dataset.esta_vacio, beq_iff_eq, List.length_eq_zero] at hv
    rw [Dataset.obtener_campos, hv] at hmem
    simp at hmem
  · rw [if_neg hv]
    exact analizar_fold_mem d campo _ [] hmem hnd rfl

/-- **C3 (amended).** For a non-empty Dataset with distinct schema fields
and a schema field `campo`: the fields map has an entry for `campo` iff
the field has at least one non-null value (all-null fields are omitted);
the entry is the numeric statistics of the coerced values when at least
two coerce, and otherwise the categorical statistics, whose contents are:
the total value count, the distinct count, a most frequent value with
maximal multiplicity, its frequency (reported as `0` when the most
frequent value is the empty string — a falsy guard in the source), and
the full value-to-frequency map. -/
theorem analizar_entrada_por_campo (d : Dataset) (campo : String)
    (hnd : d.obtener_campos.Nodup) (hmem : campo ∈ d.obtener_campos) :
    (d.obtener_valores_campo campo = [] →
        (analizar d).campos.lookup campo = none) ∧
    (2 ≤ ((d.obtener_valores_campo campo).filterMap pyFloat).length →
        (analizar d).campos.lookup campo =
          some (.numericas (estadisticas_numericas
            ((d.obtener_valores_campo campo).filterMap pyFloat)))) ∧
    (d.obtener_valores_campo campo ≠ [] →
      ((d.obtener_valores_campo campo).filterMap pyFloat).length < 2 →
      ∃ e : EstadisticasCategoricas,
        (analizar d).campos.lookup campo = some (.categoricas e) ∧
        e.total_valores = (d.obtener_valores_campo campo).length ∧
        e.valores_unicos = (d.obtener_valores_campo campo).toFinset.card ∧
        (∀ v : String, e.distribucion.lookup v =
          if v ∈ d.obtener_valores_campo campo
          then some ((d.obtener_valores_campo campo).count v) else none) ∧
        ∃ m : String, e.valor_mas_comun = some m ∧
          m ∈ d.obtener_valores_campo campo ∧
          (∀ v ∈ d.obtener_valores_campo campo,
            (d.obtener_valores_campo campo).count v ≤
              (d.obtener_valores_campo campo).count m) ∧
          e.frecuencia_mas_comun =
            if m = "" then 0
            else (d.obtener_valores_campo campo).count m) := by
  have hlk := analizar_lookup d campo hnd hmem
  refine ⟨?_, ?_, ?_⟩
  · intro hv
    rw [hlk]
    simp [analizar_campo, hv]
  · intro h2
    have hnonempty : (d.obtener_valores_campo campo).isEmpty = false := by
      cases hv : d.obtener_valores_campo campo with
      | nil => rw [hv] at h2; simp at h2
      | cons a t => rfl
    rw [hlk]
    simp [analizar_campo, hnonempty, h2]
  · intro hne h2
    have hnonempty : (d.obtener_valores_campo campo).isEmpty = false := by
      cases hv : d.obtener_valores_campo campo with
      | nil => exact absurd hv hne
      | cons a t => rfl
    have hlt : ¬ 2 ≤ ((d.obtener_valores_campo campo).filterMap pyFloat).length := by
      omega
    refine ⟨estadisticas_categoricas (d.obtener_valores_campo campo), ?_, rfl, ?_, ?_, ?_⟩
    · rw [hlk]
      simp [analizar_campo, hnonempty, hlt]
    · simp [estadisticas_categoricas, List.card_toFinset]
    · intro v
      simp [estadisticas_categoricas, frecuencias_lookup]
    · have hfne : frecuenciasDe (d.obtener_valores_campo campo) ≠ [] := by
        obtain ⟨a, t, hv⟩ : ∃ a t, d.obtener_valores_campo campo = a :: t := by
          cases hv : d.obtener_valores_campo campo with
          | nil => exact absurd hv hne
          | cons a t => exact ⟨a, t, rfl⟩
        intro hf
        have hlka := frecuencias_lookup (d.obtener_valores_campo campo) a
        rw [hf, if_pos (by rw [hv]; exact List.mem_cons_self _ _)] at hlka
        exact absurd hlka.symm (by simp)
      obtain ⟨p, hp1, hp2, hp3⟩ :=
        maxPorFrecuencia_spec (frecuenciasDe (d.obtener_valores_campo campo)) hfne
      have hlkp := nodup_keys_mem_lookup (frec_keys_nodup (d.obtener_valores_campo campo)) hp2
      rw [frecuencias_lookup] at hlkp
      by_cases hmemv : p.1 ∈ d.obtener_valores_campo campo
      case neg =>
        rw [if_neg hmemv] at hlkp
        exact absurd hlkp (by simp)
      rw [if_pos hmemv] at hlkp
      have hcount : p.2 = (d.obtener_valores_campo campo).count p.1 := by
        have := Option.some.inj hlkp
        omega
      refine ⟨p.1, ?_, hmemv, ?_, ?_⟩
      · simp [estadisticas_categoricas, hp1]
      · intro v hv
        have hlv : (frecuenciasDe (d.obtener_valores_campo campo)).lookup v =
            some ((d.obtener_valores_campo campo).count v) := by
          rw [frecuencias_lookup, if_pos hv]
        have hmem2 := lookup_eq_some_mem hlv
        have hle := hp3 _ hmem2
        simpa [← hcount] using hle
      · simp only [estadisticas_categoricas]
        rw [hp1]
        by_cases hem : p.1 = ""
        · rw [show pyTruthy (some p.1) = false from by rw [hem]; decide, if_pos hem]
          rfl
        · have hemb : p.1.isEmpty = false := by
            cases hb : p.1.isEmpty
            · rfl
            · exact absurd ((String.isEmpty_iff p.1).mp hb) hem
          simp [pyTruthy, hemb, hem, frecuencias_lookup, hmemv]

/-- Witness for the amended C3 at `dsModa`'s field `v` (two coercible
values): the entry is the numeric statistics of `[1, 2]`. -/
theorem analizar_entrada_testigo :
    (analizar dsModa).campos.lookup "v" =
      some (.numericas (estadisticas_numericas
        ((dsModa.obtener_valores_campo "v").filterMap pyFloat))) :=
  (analizar_entrada_por_campo dsModa "v" (by decide) (by decide)).2.1
    (by with_unfolding_all decide)

/-! ### Statistical analyzer per-field entries (C3): counterexample -/

/-- **C3, counterexample.** Field `b` of `dsNulo` is in the schema (it is
present, with value `None`, in the first record) yet `analizar` emits no
entry for it — `_analizar_campo` returns `None` for a field with no
non-null values.  Moreover, for a field whose most frequent value is the
empty string (`dsVacioTexto`), the reported frequency is `0`, not the
value's actual frequency `2` (the source guards with a falsy test). -/
theorem analizar_campos_contraejemplo :
    ("b" ∈ dsNulo.obtener_campos ∧ (analizar dsNulo).campos.lookup "b" = none) ∧
    ((analizar dsVacioTexto).campos.lookup "v" =
        some (.categoricas (estadisticas_categoricas ["", ""])) ∧
      (estadisticas_categoricas ["", ""]).valor_mas_comun = some "" ∧
      (estadisticas_categoricas ["", ""]).frecuencia_mas_comun = 0 ∧
      ["", ""].count "" = 2) := by
  with_unfolding_all decide

end ProgCourse
